import Mathlib

/-!
Verification development for the LangChain calculator agent.

The Python source is shallowly embedded:
* Python `float` values are abstracted as exact rationals extended with the
  special values `inf`, `-inf` and `nan` (`PyVal`); rounding and overflow of
  IEEE doubles are outside the model.
* Exceptions become `Except` / `Option` results.
* The agent's LLM runtime is an oracle `String → Except String String`
  (either an output string or a raised error carrying its message text).

Rational arithmetic is implemented through `mkRat` so that every definition
evaluates inside the kernel (`decide` / `rfl`); the operations are proved
equal to Mathlib's field operations on `ℚ`.
-/

namespace CalcAgent

/-- Kernel-reducible addition on `ℚ` (Batteries' `Rat.add` is irreducible). -/
def qadd (a b : ℚ) : ℚ := mkRat (a.num * b.den + b.num * a.den) (a.den * b.den)

/-- Kernel-reducible multiplication on `ℚ`. -/
def qmul (a b : ℚ) : ℚ := mkRat (a.num * b.num) (a.den * b.den)

/-- Kernel-reducible negation on `ℚ`. -/
def qneg (a : ℚ) : ℚ := mkRat (-a.num) a.den

/-- Kernel-reducible subtraction on `ℚ`. -/
def qsub (a b : ℚ) : ℚ := qadd a (qneg b)

/-- Kernel-reducible division on `ℚ` (division by zero yields zero, as in Mathlib). -/
def qdiv (a b : ℚ) : ℚ :=
  if b.num < 0 then mkRat (-(a.num * b.den)) (a.den * b.num.natAbs)
  else mkRat (a.num * b.den) (a.den * b.num.natAbs)

/-- Abstraction of a Python `float`: an exact rational, or one of the special
values `inf`, `-inf`, `nan`.  IEEE rounding, overflow and signed zero are
outside the model. -/
inductive PyVal where
  | finite (q : ℚ)
  | inf
  | negInf
  | nan
deriving DecidableEq

/-- Negation on `PyVal` (`-x` on Python floats). -/
def PyVal.vneg : PyVal → PyVal
  | .finite q => .finite (qneg q)
  | .inf => .negInf
  | .negInf => .inf
  | .nan => .nan

/-- Addition on `PyVal` (`x + y` on Python floats). -/
def PyVal.vadd : PyVal → PyVal → PyVal
  | .nan, _ => .nan
  | _, .nan => .nan
  | .inf, .negInf => .nan
  | .inf, _ => .inf
  | .negInf, .inf => .nan
  | .negInf, _ => .negInf
  | .finite _, .inf => .inf
  | .finite _, .negInf => .negInf
  | .finite a, .finite b => .finite (qadd a b)

/-- Subtraction on `PyVal` (`x - y` on Python floats). -/
def PyVal.vsub (a b : PyVal) : PyVal := a.vadd b.vneg

/-- Sign classification of a `PyVal` used by multiplication and division. -/
def PyVal.sgn : PyVal → Int
  | .finite q => if q.num < 0 then -1 else if q.num = 0 then 0 else 1
  | .inf => 1
  | .negInf => -1
  | .nan => 0

/-- Multiplication on `PyVal` (`x * y` on Python floats). -/
def PyVal.vmul : PyVal → PyVal → PyVal
  | .nan, _ => .nan
  | _, .nan => .nan
  | .finite a, .finite b => .finite (qmul a b)
  | a, b =>
    -- at least one operand is infinite here
    if a.sgn * b.sgn = 0 then .nan
    else if a.sgn * b.sgn = 1 then .inf
    else .negInf

/-- Division on `PyVal` (`x / y` on Python floats).  The zero-divisor case is
unreachable in the embedded program: `divide` guards it beforehand. -/
def PyVal.vdiv : PyVal → PyVal → PyVal
  | .nan, _ => .nan
  | _, .nan => .nan
  | .inf, .finite b => if b.num < 0 then .negInf else .inf
  | .negInf, .finite b => if b.num < 0 then .inf else .negInf
  | .inf, _ => .nan
  | .negInf, _ => .nan
  | .finite _, .inf => .finite 0
  | .finite _, .negInf => .finite 0
  | .finite a, .finite b => .finite (qdiv a b)

instance instDecEqExcept {ε α : Type} [DecidableEq ε] [DecidableEq α] :
    DecidableEq (Except ε α) := fun a b =>
  match a, b with
  | .ok x, .ok y =>
    if h : x = y then isTrue (congrArg Except.ok h)
    else isFalse fun hc => h (by cases hc; rfl)
  | .ok _, .error _ => isFalse fun hc => Except.noConfusion hc
  | .error _, .ok _ => isFalse fun hc => Except.noConfusion hc
  | .error x, .error y =>
    if h : x = y then isTrue (congrArg Except.error h)
    else isFalse fun hc => h (by cases hc; rfl)

/-- A Python value that can be handed to the arithmetic tools (`Any`). -/
inductive PyObj where
  | num (v : PyVal)
  | str (s : String)
  | pyNone
  | other
deriving DecidableEq

/-- Errors the arithmetic primitives can signal. -/
inductive ArithErr where
  | invalidInput
  | divisionByZero
deriving DecidableEq

/-- Characters matched by Python's `\s` on `str` and stripped by `str.strip()`
(the Unicode whitespace set of CPython 3.11). -/
def isPySpace (c : Char) : Bool :=
  [9, 10, 11, 12, 13, 28, 29, 30, 31, 32, 0x85, 0xa0, 0x1680,
   0x2000, 0x2001, 0x2002, 0x2003, 0x2004, 0x2005, 0x2006, 0x2007,
   0x2008, 0x2009, 0x200a, 0x2028, 0x2029, 0x202f, 0x205f, 0x3000].contains c.toNat

/-- Drop Python whitespace from both ends of a character list. -/
def trimChars (cs : List Char) : List Char :=
  ((cs.dropWhile isPySpace).reverse.dropWhile isPySpace).reverse

/-- Python `str.strip()` with no argument. -/
def pyStrip (s : String) : String := String.mk (trimChars s.data)

/-- Digit characters are modelled as ASCII `0-9`; the non-ASCII decimal digits
that CPython's `\d` and `float()` additionally accept are outside the model
(no claim in scope exercises them). -/
def digitsToNat (ds : List Char) : ℕ :=
  ds.foldl (fun a c => 10 * a + (c.toNat - 48)) 0

/-- Collect a run of digits possibly separated by single underscores, as in
Python numeric literals accepted by `float()`; returns the digits (without
underscores) and the unconsumed rest.  A trailing or doubled underscore is
left in the rest, which makes the surrounding parse fail. -/
def digitsU : ℕ → List Char → List Char × List Char
  | 0, cs => ([], cs)
  | _ + 1, [] => ([], [])
  | f + 1, c :: rest =>
    if c.isDigit then
      match rest with
      | '_' :: d :: r2 =>
        if d.isDigit then
          let p := digitsU f (d :: r2)
          (c :: p.1, p.2)
        else ([c], '_' :: d :: r2)
      | _ =>
        let p := digitsU f rest
        (c :: p.1, p.2)
    else ([], c :: rest)

/-- Value of a decimal string: mantissa digits, fraction digits, exponent. -/
def decValue (neg : Bool) (ip fp : List Char) (eneg : Bool) (ed : List Char) : ℚ :=
  let m : ℕ := digitsToNat (ip ++ fp)
  let e : ℕ := digitsToNat ed
  let num : ℕ := if eneg then m else m * 10 ^ e
  let den : ℕ := if eneg then 10 ^ (fp.length + e) else 10 ^ fp.length
  mkRat (if neg then -(num : ℤ) else (num : ℤ)) den

/-- Parse the optional exponent part and finish a decimal `float()` literal;
the whole remaining input must be consumed. -/
def parseExpPart (neg : Bool) (ip fp : List Char) (r : List Char) : Option ℚ :=
  match r with
  | [] => some (decValue neg ip fp false [])
  | 'e' :: r2 =>
    (match r2 with
     | '+' :: r3 =>
       match digitsU r3.length r3 with
       | (ed, []) => if ed.isEmpty then none else some (decValue neg ip fp false ed)
       | _ => none
     | '-' :: r3 =>
       match digitsU r3.length r3 with
       | (ed, []) => if ed.isEmpty then none else some (decValue neg ip fp true ed)
       | _ => none
     | _ =>
       match digitsU r2.length r2 with
       | (ed, []) => if ed.isEmpty then none else some (decValue neg ip fp false ed)
       | _ => none)
  | 'E' :: r2 =>
    (match r2 with
     | '+' :: r3 =>
       match digitsU r3.length r3 with
       | (ed, []) => if ed.isEmpty then none else some (decValue neg ip fp false ed)
       | _ => none
     | '-' :: r3 =>
       match digitsU r3.length r3 with
       | (ed, []) => if ed.isEmpty then none else some (decValue neg ip fp true ed)
       | _ => none
     | _ =>
       match digitsU r2.length r2 with
       | (ed, []) => if ed.isEmpty then none else some (decValue neg ip fp false ed)
       | _ => none)
  | _ => none

/-- Parse the mantissa of a decimal `float()` literal (sign already removed). -/
def parseDec (neg : Bool) (cs : List Char) : Option ℚ :=
  let p := digitsU cs.length cs
  match p.2 with
  | '.' :: r2 =>
    let q := digitsU r2.length r2
    if p.1.isEmpty && q.1.isEmpty then none
    else parseExpPart neg p.1 q.1 q.2
  | r1 =>
    if p.1.isEmpty then none else parseExpPart neg p.1 [] r1

/-- Body of `float(str)` after stripping and sign handling. -/
def pyFloatCore (neg : Bool) (cs : List Char) : Option PyVal :=
  let low := cs.map Char.toLower
  if low = "inf".data || low = "infinity".data then
    some (if neg then .negInf else .inf)
  else if low = "nan".data then some .nan
  else (parseDec neg cs).map PyVal.finite

/-- Python `float()` applied to a string: optional surrounding whitespace,
optional sign, then a decimal literal (underscores between digits allowed, as
accepted since Python 3.6) or `inf`/`infinity`/`nan` case-insensitively.
`None` models the `ValueError` raised for anything else. -/
def pyFloatOfString (s : String) : Option PyVal :=
  match trimChars s.data with
  | '+' :: r => pyFloatCore false r
  | '-' :: r => pyFloatCore true r
  | r => pyFloatCore false r

/-- Model of `_to_float`: identity on numbers, `float()` on strings, a
controlled invalid-input error when conversion fails (`TypeError` and
`ValueError` are both caught there). -/
def to_float : PyObj → Except ArithErr PyVal
  | .num v => .ok v
  | .str s =>
    match pyFloatOfString s with
    | some v => .ok v
    | none => .error .invalidInput
  | .pyNone => .error .invalidInput
  | .other => .error .invalidInput

/-- Model of the `add` tool: coerce both operands in order, then sum. -/
def add (a b : PyObj) : Except ArithErr PyVal :=
  match to_float a with
  | .error e => .error e
  | .ok l =>
    match to_float b with
    | .error e => .error e
    | .ok r => .ok (l.vadd r)

/-- Model of the `subtract` tool: coerce both operands in order, then difference. -/
def subtract (a b : PyObj) : Except ArithErr PyVal :=
  match to_float a with
  | .error e => .error e
  | .ok l =>
    match to_float b with
    | .error e => .error e
    | .ok r => .ok (l.vsub r)

/-- Model of the `multiply` tool: coerce both operands in order, then product. -/
def multiply (a b : PyObj) : Except ArithErr PyVal :=
  match to_float a with
  | .error e => .error e
  | .ok l =>
    match to_float b with
    | .error e => .error e
    | .ok r => .ok (l.vmul r)

/-- Model of the `divide` tool: coerce both operands in order, raise on a zero
divisor (`right == 0` on floats holds exactly for zero), else quotient. -/
def divide (a b : PyObj) : Except ArithErr PyVal :=
  match to_float a with
  | .error e => .error e
  | .ok l =>
    match to_float b with
    | .error e => .error e
    | .ok r => if r = .finite 0 then .error .divisionByZero else .ok (l.vdiv r)

/-- Fixed out-of-scope refusal message of the agent. -/
def OUT_OF_SCOPE_MESSAGE : String :=
  "I can only help with basic arithmetic (add/subtract/multiply/divide). Please provide a math expression."

/-- Fixed setup-unavailable message (raised at construction, never returned by `ask`). -/
def LLM_SETUP_MESSAGE : String :=
  "LLM runtime is unavailable. Set OPENAI_API_KEY and install required dependencies (`langchain`, `langchain-openai`, `python-dotenv`)."

/-- Fixed tool-failure message. -/
def TOOL_FAILURE_MESSAGE : String :=
  "I couldn't compute that due to invalid input (e.g., division by zero or non-numeric values)."

/-- One of the four ASCII operator characters. -/
def isOpChar (c : Char) : Bool :=
  c == '+' || c == '-' || c == '*' || c == '/'

/-- A character allowed by the gate's whitelist `[0-9\s\+\-\*/\(\)\.]`. -/
def isAllowedChar (c : Char) : Bool :=
  c.isDigit || isPySpace c || isOpChar c || c == '(' || c == ')' || c == '.'

/-- Model of `_is_strict_pure_expression`: the query must fully match the
whitelist (nonempty), contain a digit and contain an operator character. -/
def is_strict_pure_expression (s : String) : Bool :=
  if s.data.isEmpty then false
  else if ! s.data.all isAllowedChar then false
  else s.data.any Char.isDigit && s.data.any isOpChar

/-- Greedy tail of a regex number match starting at a digit: `\d+(?:\.\d+)?`. -/
def reNumTail (cs : List Char) : List Char × List Char :=
  let ds := cs.takeWhile Char.isDigit
  let r1 := cs.dropWhile Char.isDigit
  match r1 with
  | '.' :: d2 :: r2 =>
    if d2.isDigit then
      let fs := (d2 :: r2).takeWhile Char.isDigit
      let r3 := (d2 :: r2).dropWhile Char.isDigit
      (ds ++ '.' :: fs, r3)
    else (ds, r1)
  | _ => (ds, r1)

/-- Attempt of the pattern `-?\d+(?:\.\d+)?` anchored at the current position. -/
def reMatchAt (cs : List Char) : Option (List Char × List Char) :=
  match cs with
  | '-' :: d :: r =>
    if d.isDigit then
      let p := reNumTail (d :: r)
      some ('-' :: p.1, p.2)
    else none
  | d :: _ =>
    if d.isDigit then some (reNumTail cs) else none
  | [] => none

/-- Model of `re.findall(r"-?\d+(?:\.\d+)?", ·)`: scan left to right, take
each leftmost non-overlapping match. -/
def reFindNums : ℕ → List Char → List (List Char)
  | 0, _ => []
  | _ + 1, [] => []
  | f + 1, c :: rest =>
    match reMatchAt (c :: rest) with
    | some (m, r) => m :: reFindNums f r
    | none => reFindNums f rest

/-- Model of `_extract_numeric_answer`: try `float()` on the whole trimmed
text; otherwise the last regex match; otherwise `None`. -/
def extract_numeric_answer (text : String) : Option PyVal :=
  let candidate := pyStrip text
  match pyFloatOfString candidate with
  | some v => some v
  | none =>
    match (reFindNums candidate.data.length candidate.data).getLast? with
    | some m => pyFloatOfString (String.mk m)
    | none => none

/-- Least `k ∈ [1,17]` such that `q * 10^k` is an integer, if any. -/
def decScale (q : ℚ) : Option ℕ :=
  (List.range 17).findSome? fun i =>
    if (qmul q (mkRat ((10 : ℤ) ^ (i + 1)) 1)).den = 1 then some (i + 1) else none

/-- Model of `str(float_value)`.  Exact on the special values and on values
Python prints in plain decimal notation (integral values below `10^16`, and
short terminating decimals).  Values Python would print in scientific
notation, and non-terminating expansions (which require IEEE rounding to
print), fall to a `num/den` placeholder outside the modelled range. -/
def pyFloatStr : PyVal → String
  | .nan => "nan"
  | .inf => "inf"
  | .negInf => "-inf"
  | .finite q =>
    let sign := if q.num < 0 then "-" else ""
    let a := if q.num < 0 then qneg q else q
    if a.den = 1 && a.num < (10 : ℤ) ^ 16 then
      sign ++ toString a.num ++ ".0"
    else
      match decScale a with
      | some k =>
        let n := (qmul a (mkRat ((10 : ℤ) ^ k) 1)).num.toNat
        let ipart := n / 10 ^ k
        let fpart := n % 10 ^ k
        let fs := toString fpart
        if (ipart : ℤ) < (10 : ℤ) ^ 16 && 10 ^ k ≤ n * 10000 then
          sign ++ toString ipart ++ "." ++
            String.mk (List.replicate (k - fs.length) '0') ++ fs
        else sign ++ toString a.num ++ "/" ++ toString a.den
      | none => sign ++ toString a.num ++ "/" ++ toString a.den

/-- Model of `_format_numeric`: `str(float(value))`; the inner `float` call
is the identity on a value that is already a float. -/
def format_numeric (v : PyVal) : String := pyFloatStr v

/-- Tokens of the expression fragment reachable through the gate's alphabet. -/
inductive Tok where
  | num (q : ℚ)
  | plus
  | minus
  | star
  | slash
  | dstar
  | dslash
  | lparen
  | rparen
  | dot
deriving DecidableEq

/-- Lex a numeric literal (digits, optionally a point and more digits) at the
head of the input.  Returns its value, whether it is a decimal-integer
literal with forbidden leading zeros (`01` is a `SyntaxError` in Python 3,
`00` and `01.5` are fine), and the unconsumed rest. -/
def lexNumber (cs : List Char) : ℚ × Bool × List Char :=
  let ip := cs.takeWhile Char.isDigit
  let r1 := cs.dropWhile Char.isDigit
  match r1 with
  | '.' :: r2 =>
    let fp := r2.takeWhile Char.isDigit
    let r3 := r2.dropWhile Char.isDigit
    (mkRat (digitsToNat (ip ++ fp) : ℤ) (10 ^ fp.length), false, r3)
  | _ =>
    (mkRat (digitsToNat ip : ℤ) 1,
     decide (ip.head? = some '0') && ip.any (fun c => c ≠ '0'),
     r1)

mutual

/-- Start-of-line scanner of the CPython tokenizer at parenthesis depth 0:
spaces and tabs raise an indentation flag, a form feed resets it, newlines
start a fresh (blank) line; a non-whitespace character with the flag raised
is an `IndentationError`, as is end of input with the flag raised; when
`allow` is false (a depth-0 logical line already ended) any further
non-whitespace character is a `SyntaxError`. -/
def lexWS : ℕ → List Char → Bool → Bool → Option (List Tok)
  | 0, _, _, _ => none
  | _ + 1, [], ind, _ => if ind then none else some []
  | f + 1, c :: r, ind, allow =>
    if c = ' ' || c = '\t' then lexWS f r true allow
    else if c = '\x0c' then lexWS f r false allow
    else if c = '\n' || c = '\r' then lexWS f r false allow
    else if ind || ! allow then none
    else lexContent f (c :: r) 0

/-- Token scanner of the CPython tokenizer restricted to the gate's alphabet:
`**` and `//` lex as single operators by maximal munch, parentheses track the
depth, newlines inside parentheses are implicit continuations while a newline
at depth 0 ends the expression, and any character outside the recognised set
(including vertical tabs and exotic Unicode whitespace) is an error. -/
def lexContent : ℕ → List Char → ℕ → Option (List Tok)
  | 0, _, _ => none
  | _ + 1, [], _ => some []
  | f + 1, c :: r, depth =>
    if c = ' ' || c = '\t' || c = '\x0c' then lexContent f r depth
    else if c = '\n' || c = '\r' then
      if depth = 0 then lexWS f r false false
      else lexContent f r depth
    else if c = '+' then
      (Tok.plus :: ·) <$> lexContent f r depth
    else if c = '-' then
      (Tok.minus :: ·) <$> lexContent f r depth
    else if c = '*' then
      match r with
      | '*' :: r2 => (Tok.dstar :: ·) <$> lexContent f r2 depth
      | _ => (Tok.star :: ·) <$> lexContent f r depth
    else if c = '/' then
      match r with
      | '/' :: r2 => (Tok.dslash :: ·) <$> lexContent f r2 depth
      | _ => (Tok.slash :: ·) <$> lexContent f r depth
    else if c = '(' then
      (Tok.lparen :: ·) <$> lexContent f r (depth + 1)
    else if c = ')' then
      (Tok.rparen :: ·) <$> lexContent f r (depth - 1)
    else if c.isDigit then
      match lexNumber (c :: r) with
      | (q, viol, rest) =>
        if viol then none else (Tok.num q :: ·) <$> lexContent f rest depth
    else if c = '.' then
      match r with
      | d :: _ =>
        if d.isDigit then
          match lexNumber (c :: r) with
          | (q, _, rest) => (Tok.num q :: ·) <$> lexContent f rest depth
        else (Tok.dot :: ·) <$> lexContent f r depth
      | [] => (Tok.dot :: ·) <$> lexContent f r depth
    else none

end

/-- Model of the tokenization performed by `ast.parse(·, mode="eval")` on the
gate's alphabet: `none` is a `SyntaxError`/`IndentationError`. -/
def pyTokenize (s : String) : Option (List Tok) :=
  lexWS (2 * s.data.length + 4) s.data false true

/-- Whitespace-insensitive lexer giving the plain mathematical reading of an
expression string: every Python whitespace character is skipped everywhere
and numeric literals carry no leading-zero restriction. -/
def lexStd : ℕ → List Char → Option (List Tok)
  | 0, _ => none
  | _ + 1, [] => some []
  | f + 1, c :: r =>
    if isPySpace c then lexStd f r
    else if c = '+' then (Tok.plus :: ·) <$> lexStd f r
    else if c = '-' then (Tok.minus :: ·) <$> lexStd f r
    else if c = '*' then
      match r with
      | '*' :: r2 => (Tok.dstar :: ·) <$> lexStd f r2
      | _ => (Tok.star :: ·) <$> lexStd f r
    else if c = '/' then
      match r with
      | '/' :: r2 => (Tok.dslash :: ·) <$> lexStd f r2
      | _ => (Tok.slash :: ·) <$> lexStd f r
    else if c = '(' then (Tok.lparen :: ·) <$> lexStd f r
    else if c = ')' then (Tok.rparen :: ·) <$> lexStd f r
    else if c.isDigit then
      match lexNumber (c :: r) with
      | (q, _, rest) => (Tok.num q :: ·) <$> lexStd f rest
    else if c = '.' then
      match r with
      | d :: _ =>
        if d.isDigit then
          match lexNumber (c :: r) with
          | (q, _, rest) => (Tok.num q :: ·) <$> lexStd f rest
        else (Tok.dot :: ·) <$> lexStd f r
      | [] => (Tok.dot :: ·) <$> lexStd f r
    else none

/-- Tokenizer of the lenient standard reading. -/
def stdTokenize (s : String) : Option (List Tok) :=
  lexStd (s.data.length + 1) s.data

/-- Unary operator tags (`ast.UAdd`, `ast.USub`). -/
inductive UOp where
  | pos
  | neg
deriving DecidableEq

/-- Binary operator tags produced by Python's grammar over the gate alphabet
(`ast.Add`, `ast.Sub`, `ast.Mult`, `ast.Div`, `ast.Pow`, `ast.FloorDiv`). -/
inductive BOp where
  | add
  | sub
  | mul
  | div
  | pow
  | floordiv
deriving DecidableEq

/-- Abstract syntax trees `ast.parse(·, mode="eval")` can produce from a
string over the gate alphabet: constants, unary and binary operations, call
expressions such as `1(2)`, and the empty tuple `()`. -/
inductive PyAst where
  | const (q : ℚ)
  | unary (u : UOp) (e : PyAst)
  | binop (op : BOp) (l r : PyAst)
  | call0 (fn : PyAst)
  | call1 (fn arg : PyAst)
  | tuple0
deriving DecidableEq

/-- The four binary operators of the spec's restricted expression language. -/
inductive StdOp where
  | add
  | sub
  | mul
  | div
deriving DecidableEq

/-- Expression trees of the spec's data model: literal, unary sign, binary
operation (§3 of the specification). -/
inductive StdExpr where
  | lit (q : ℚ)
  | sign (u : UOp) (e : StdExpr)
  | bin (op : StdOp) (l r : StdExpr)
deriving DecidableEq

/-- Inclusion of the spec's operator tags into Python's. -/
def StdOp.emb : StdOp → BOp
  | .add => .add
  | .sub => .sub
  | .mul => .mul
  | .div => .div

/-- Inclusion of the spec's expression trees into Python's ASTs. -/
def StdExpr.emb : StdExpr → PyAst
  | .lit q => .const q
  | .sign u e => .unary u e.emb
  | .bin op l r => .binop op.emb l.emb r.emb

mutual

/-- Python `atom`: a number, a parenthesised expression, or the empty tuple. -/
def pyAtom : ℕ → List Tok → Option (PyAst × List Tok)
  | 0, _ => none
  | _ + 1, .num q :: r => some (.const q, r)
  | _ + 1, .lparen :: .rparen :: r => some (.tuple0, r)
  | f + 1, .lparen :: r =>
    match pyExpr f r with
    | some (e, .rparen :: r2) => some (e, r2)
    | _ => none
  | _ + 1, _ => none

/-- Python call trailers `atom(...)` followed by the optional right-associative
`** factor` of the `power` production. -/
def pyTrailPow : ℕ → PyAst → List Tok → Option (PyAst × List Tok)
  | 0, _, _ => none
  | f + 1, a, .lparen :: .rparen :: r => pyTrailPow f (.call0 a) r
  | f + 1, a, .lparen :: r =>
    (match pyExpr f r with
     | some (b, .rparen :: r2) => pyTrailPow f (.call1 a b) r2
     | _ => none)
  | f + 1, a, .dstar :: r =>
    (match pyFactor f r with
     | some (b, r2) => some (.binop .pow a b, r2)
     | none => none)
  | _ + 1, a, r => some (a, r)

/-- Python `factor`: unary signs over `power`. -/
def pyFactor : ℕ → List Tok → Option (PyAst × List Tok)
  | 0, _ => none
  | f + 1, .plus :: r => (fun p => (.unary .pos p.1, p.2)) <$> pyFactor f r
  | f + 1, .minus :: r => (fun p => (.unary .neg p.1, p.2)) <$> pyFactor f r
  | f + 1, toks =>
    match pyAtom f toks with
    | some (a, r) => pyTrailPow f a r
    | none => none

/-- Left-associative loop of Python `term` over `*`, `/` and `//`. -/
def pyTermRest : ℕ → PyAst → List Tok → Option (PyAst × List Tok)
  | 0, _, _ => none
  | f + 1, acc, .star :: r =>
    (match pyFactor f r with
     | some (b, r2) => pyTermRest f (.binop .mul acc b) r2
     | none => none)
  | f + 1, acc, .slash :: r =>
    (match pyFactor f r with
     | some (b, r2) => pyTermRest f (.binop .div acc b) r2
     | none => none)
  | f + 1, acc, .dslash :: r =>
    (match pyFactor f r with
     | some (b, r2) => pyTermRest f (.binop .floordiv acc b) r2
     | none => none)
  | _ + 1, acc, r => some (acc, r)

/-- Python `term`. -/
def pyTerm : ℕ → List Tok → Option (PyAst × List Tok)
  | 0, _ => none
  | f + 1, toks =>
    match pyFactor f toks with
    | some (a, r) => pyTermRest f a r
    | none => none

/-- Left-associative loop of Python's additive expression over `+` and `-`. -/
def pyExprRest : ℕ → PyAst → List Tok → Option (PyAst × List Tok)
  | 0, _, _ => none
  | f + 1, acc, .plus :: r =>
    (match pyTerm f r with
     | some (b, r2) => pyExprRest f (.binop .add acc b) r2
     | none => none)
  | f + 1, acc, .minus :: r =>
    (match pyTerm f r with
     | some (b, r2) => pyExprRest f (.binop .sub acc b) r2
     | none => none)
  | _ + 1, acc, r => some (acc, r)

/-- Python additive expression. -/
def pyExpr : ℕ → List Tok → Option (PyAst × List Tok)
  | 0, _ => none
  | f + 1, toks =>
    match pyTerm f toks with
    | some (a, r) => pyExprRest f a r
    | none => none

end

mutual

/-- Standard-grammar atom: a number or a parenthesised expression. -/
def stdAtom : ℕ → List Tok → Option (StdExpr × List Tok)
  | 0, _ => none
  | _ + 1, .num q :: r => some (.lit q, r)
  | f + 1, .lparen :: r =>
    match stdExpr f r with
    | some (e, .rparen :: r2) => some (e, r2)
    | _ => none
  | _ + 1, _ => none

/-- Standard-grammar unary level: signs bind tightest. -/
def stdUnary : ℕ → List Tok → Option (StdExpr × List Tok)
  | 0, _ => none
  | f + 1, .plus :: r => (fun p => (.sign .pos p.1, p.2)) <$> stdUnary f r
  | f + 1, .minus :: r => (fun p => (.sign .neg p.1, p.2)) <$> stdUnary f r
  | f + 1, toks =>
    match stdAtom f toks with
    | some (a, r) => some (a, r)
    | none => none

/-- Left-associative loop of the standard multiplicative level (`*`, `/`). -/
def stdTermRest : ℕ → StdExpr → List Tok → Option (StdExpr × List Tok)
  | 0, _, _ => none
  | f + 1, acc, .star :: r =>
    (match stdUnary f r with
     | some (b, r2) => stdTermRest f (.bin .mul acc b) r2
     | none => none)
  | f + 1, acc, .slash :: r =>
    (match stdUnary f r with
     | some (b, r2) => stdTermRest f (.bin .div acc b) r2
     | none => none)
  | _ + 1, acc, r => some (acc, r)

/-- Standard multiplicative level. -/
def stdTerm : ℕ → List Tok → Option (StdExpr × List Tok)
  | 0, _ => none
  | f + 1, toks =>
    match stdUnary f toks with
    | some (a, r) => stdTermRest f a r
    | none => none

/-- Left-associative loop of the standard additive level (`+`, `-`). -/
def stdExprRest : ℕ → StdExpr → List Tok → Option (StdExpr × List Tok)
  | 0, _, _ => none
  | f + 1, acc, .plus :: r =>
    (match stdTerm f r with
     | some (b, r2) => stdExprRest f (.bin .add acc b) r2
     | none => none)
  | f + 1, acc, .minus :: r =>
    (match stdTerm f r with
     | some (b, r2) => stdExprRest f (.bin .sub acc b) r2
     | none => none)
  | _ + 1, acc, r => some (acc, r)

/-- Standard additive level. -/
def stdExpr : ℕ → List Tok → Option (StdExpr × List Tok)
  | 0, _ => none
  | f + 1, toks =>
    match stdTerm f toks with
    | some (a, r) => stdExprRest f a r
    | none => none

end

/-- Fuel sufficient for both recursive-descent parsers on a token list. -/
def parseFuel (toks : List Tok) : ℕ := 4 * toks.length + 8

/-- Parse a whole token list with Python's grammar. -/
def pyParse (toks : List Tok) : Option PyAst :=
  match pyExpr (parseFuel toks) toks with
  | some (e, []) => some e
  | _ => none

/-- Parse a whole token list with the standard grammar. -/
def stdParse (toks : List Tok) : Option StdExpr :=
  match stdExpr (parseFuel toks) toks with
  | some (e, []) => some e
  | _ => none

/-- Errors of the fallback evaluator. -/
inductive EvalErr where
  | syntaxErr
  | unsupported
  | invalidInput
  | divisionByZero
deriving DecidableEq

/-- Inclusion of primitive-tool errors into evaluator errors. -/
def ArithErr.toEval : ArithErr → EvalErr
  | .invalidInput => .invalidInput
  | .divisionByZero => .divisionByZero

/-- Model of `_eval_ast`: constants and unary signs are handled directly, a
binary node evaluates both children first and then dispatches to the shared
tool functions, and every other node shape raises the generic unsupported
error. -/
def eval_ast : PyAst → Except EvalErr PyVal
  | .const q => .ok (.finite q)
  | .unary u e =>
    (match eval_ast e with
     | .error err => .error err
     | .ok v =>
       match u with
       | .pos => .ok v
       | .neg => .ok v.vneg)
  | .binop op l r =>
    (match eval_ast l with
     | .error err => .error err
     | .ok a =>
       match eval_ast r with
       | .error err => .error err
       | .ok b =>
         match op with
         | .add => (add (.num a) (.num b)).mapError ArithErr.toEval
         | .sub => (subtract (.num a) (.num b)).mapError ArithErr.toEval
         | .mul => (multiply (.num a) (.num b)).mapError ArithErr.toEval
         | .div => (divide (.num a) (.num b)).mapError ArithErr.toEval
         | .pow => .error .unsupported
         | .floordiv => .error .unsupported)
  | .call0 _ => .error .unsupported
  | .call1 _ _ => .error .unsupported
  | .tuple0 => .error .unsupported

/-- Model of `_evaluate_pure_expression`: `ast.parse` (tokenize + parse),
then the restricted AST evaluation; every parse failure collapses to a
syntax-error outcome. -/
def evaluate_pure_expression (s : String) : Except EvalErr PyVal :=
  match pyTokenize s with
  | none => .error .syntaxErr
  | some toks =>
    match pyParse toks with
    | none => .error .syntaxErr
    | some a => eval_ast a

/-- Evaluation of a spec expression tree: literals yield their value, unary
plus is the identity, unary minus negates, binary nodes dispatch to the
arithmetic primitives of §4.1; any primitive error makes the value undefined. -/
def stdEvalTree : StdExpr → Option PyVal
  | .lit q => some (.finite q)
  | .sign .pos e => stdEvalTree e
  | .sign .neg e => (stdEvalTree e).map PyVal.vneg
  | .bin op l r =>
    (match stdEvalTree l with
     | none => none
     | some a =>
       match stdEvalTree r with
       | none => none
       | some b =>
         (match op with
          | .add => add (.num a) (.num b)
          | .sub => subtract (.num a) (.num b)
          | .mul => multiply (.num a) (.num b)
          | .div => divide (.num a) (.num b)).toOption)

/-- Value of a string under standard operator-precedence reading, using the
Python lexer (the amended claim C1's hypothesis). -/
def stdStrictValue (s : String) : Option PyVal :=
  (pyTokenize s).bind fun toks => (stdParse toks).bind stdEvalTree

/-- Value of a string under the fully whitespace-insensitive standard
arithmetic reading (claim C1's literal hypothesis). -/
def stdLenientValue (s : String) : Option PyVal :=
  (stdTokenize s).bind fun toks => (stdParse toks).bind stdEvalTree

/-- Body of the `try` block of `ask`: run the LLM (its raised exception, a
`String` message, propagates), strip the output as `_run_langchain` does,
normalize it, and choose formatted number / verbatim text / tool failure. -/
def tryBody (rt : String → Except String String) (clean : String) :
    Except String String :=
  match rt clean with
  | .error e => .error e
  | .ok outRaw =>
    let llmOut := pyStrip outRaw
    match extract_numeric_answer llmOut with
    | some v => .ok (format_numeric v)
    | none => if llmOut ≠ "" then .ok llmOut else .ok TOOL_FAILURE_MESSAGE

/-- The `except` handler of `ask`, parameterized by the fallback evaluator:
opt-in fallback restricted by the strict gate; every evaluation error maps to
the fixed tool-failure message. -/
def fallbackBranch (ev : String → Except EvalErr PyVal) (fb : Bool)
    (clean : String) : String :=
  if fb && is_strict_pure_expression clean then
    match ev clean with
    | .ok v => format_numeric v
    | .error _ => TOOL_FAILURE_MESSAGE
  else TOOL_FAILURE_MESSAGE

/-- Model of `CalculatorAgent.ask`, generalized over the fallback evaluator
(the agent itself always uses `evaluate_pure_expression`).  `rt` is the LLM
runtime oracle, `fb` the deterministic-fallback flag. -/
def askWith (ev : String → Except EvalErr PyVal)
    (rt : String → Except String String) (fb : Bool) (q : String) : String :=
  let clean := pyStrip q
  if clean = "" then OUT_OF_SCOPE_MESSAGE
  else
    match tryBody rt clean with
    | .ok s => s
    | .error _ => fallbackBranch ev fb clean

/-- Model of `CalculatorAgent.ask`. -/
def ask (rt : String → Except String String) (fb : Bool) (q : String) : String :=
  askWith evaluate_pure_expression rt fb q

/-- Exception-explicit version of `ask`: the result is an `Except` whose
error component would be an exception escaping to the caller; the `except`
clause catches everything the `try` body raises, so no error escapes. -/
def askE (rt : String → Except String String) (fb : Bool) (q : String) :
    Except String String :=
  let clean := pyStrip q
  if clean = "" then .ok OUT_OF_SCOPE_MESSAGE
  else
    match tryBody rt clean with
    | .ok s => .ok s
    | .error _ => .ok (fallbackBranch evaluate_pure_expression fb clean)

/-- Side condition for parser refinement at the factor level: the unconsumed
rest must not begin with a token that Python's grammar, but not the standard
grammar, would consume there (a call trailer `(` or the power operator). -/
def freeF : List Tok → Bool
  | [] => true
  | t :: _ => ! (t == .lparen || t == .dstar)

/-- Side condition at the term/expression level: additionally `//`. -/
def freeT : List Tok → Bool
  | [] => true
  | t :: _ => ! (t == .lparen || t == .dstar || t == .dslash)

/-! ### Theorems -/

theorem qadd_eq (a b : ℚ) : qadd a b = a + b := by
  rw [qadd, Rat.mkRat_eq_div]
  conv_rhs => rw [← Rat.num_div_den a, ← Rat.num_div_den b]
  have ha : (a.den : ℚ) ≠ 0 := by exact_mod_cast a.den_nz
  have hb : (b.den : ℚ) ≠ 0 := by exact_mod_cast b.den_nz
  push_cast
  field_simp

theorem qmul_eq (a b : ℚ) : qmul a b = a * b := by
  rw [qmul, Rat.mkRat_eq_div]
  conv_rhs => rw [← Rat.num_div_den a, ← Rat.num_div_den b]
  have ha : (a.den : ℚ) ≠ 0 := by exact_mod_cast a.den_nz
  have hb : (b.den : ℚ) ≠ 0 := by exact_mod_cast b.den_nz
  push_cast
  field_simp

theorem qneg_eq (a : ℚ) : qneg a = -a := by
  rw [qneg, Rat.mkRat_eq_div]
  conv_rhs => rw [← Rat.num_div_den a]
  push_cast
  field_simp

theorem qsub_eq (a b : ℚ) : qsub a b = a - b := by
  rw [qsub, qadd_eq, qneg_eq]; ring

theorem qdiv_eq (a b : ℚ) : qdiv a b = a / b := by
  rcases lt_trichotomy b.num 0 with h | h | h
  · rw [qdiv, if_pos h, Rat.mkRat_eq_div]
    conv_rhs => rw [← Rat.num_div_den a, ← Rat.num_div_den b]
    have ha : (a.den : ℚ) ≠ 0 := by exact_mod_cast a.den_nz
    have hb : (b.den : ℚ) ≠ 0 := by exact_mod_cast b.den_nz
    have hq : ((b.num : ℚ)) < 0 := by exact_mod_cast h
    have hnum : (b.num.natAbs : ℚ) = -(b.num : ℚ) := by
      rw [Int.cast_natAbs, Int.cast_abs]
      exact abs_of_neg hq
    have hbn : (b.num : ℚ) ≠ 0 := ne_of_lt hq
    push_cast
    rw [hnum]
    field_simp
  · have hb0 : b = 0 := by
      have := Rat.zero_iff_num_zero (q := b)
      exact this.mpr h
    subst hb0
    simp [qdiv, Rat.mkRat_eq_div]
  · rw [qdiv, if_neg (by omega), Rat.mkRat_eq_div]
    conv_rhs => rw [← Rat.num_div_den a, ← Rat.num_div_den b]
    have ha : (a.den : ℚ) ≠ 0 := by exact_mod_cast a.den_nz
    have hb : (b.den : ℚ) ≠ 0 := by exact_mod_cast b.den_nz
    have hq : (0 : ℚ) < (b.num : ℚ) := by exact_mod_cast h
    have hnum : (b.num.natAbs : ℚ) = (b.num : ℚ) := by
      rw [Int.cast_natAbs, Int.cast_abs]
      exact abs_of_pos hq
    have hbn : (b.num : ℚ) ≠ 0 := (ne_of_lt hq).symm
    push_cast
    rw [hnum]
    field_simp

/-- C6: for every query whose whitespace-trimmed form is empty, `ask` returns
the fixed out-of-scope message; the result is independent of the runtime
oracle and of the fallback evaluator, so neither is invoked. -/
theorem C6_empty_query (ev : String → Except EvalErr PyVal)
    (rt : String → Except String String) (fb : Bool) (q : String)
    (h : pyStrip q = "") : askWith ev rt fb q = OUT_OF_SCOPE_MESSAGE := by
  simp [askWith, h]

/-- C6 witness: a whitespace-only query, with a runtime and an evaluator that
would answer `99` if they were consulted. -/
theorem C6_witness :
    askWith (fun _ => .ok (.finite 99)) (fun _ => .ok "99") true " \t  " =
      OUT_OF_SCOPE_MESSAGE :=
  C6_empty_query (fun _ => .ok (.finite 99)) (fun _ => .ok "99") true " \t  "
    (by decide)

/-- C5: with the deterministic-fallback flag disabled, a runtime error on a
non-empty query makes `ask` return the fixed tool-failure message, whatever
the fallback evaluator would have produced (so it is never invoked). -/
theorem C5_fallback_disabled (ev : String → Except EvalErr PyVal)
    (rt : String → Except String String) (q : String) (e : String)
    (hne : pyStrip q ≠ "") (herr : rt (pyStrip q) = .error e) :
    askWith ev rt false q = TOOL_FAILURE_MESSAGE := by
  simp [askWith, hne, tryBody, herr, fallbackBranch]

/-- C5 witness: the runtime raises on `2+2`, fallback disabled; even an
evaluator that would answer `999` is ignored. -/
theorem C5_witness :
    askWith (fun _ => .ok (.finite 999)) (fun _ => .error "boom") false "2+2" =
      TOOL_FAILURE_MESSAGE :=
  C5_fallback_disabled (fun _ => .ok (.finite 999)) (fun _ => .error "boom")
    "2+2" "boom" (by decide) rfl

/-- C9: `ask` is total — the exception-explicit model of the method always
returns an `ok` result, equal to the direct model, for every runtime
behaviour (output or raised error), every flag and every query; no exception
escapes to the caller. -/
theorem C9_ask_total (rt : String → Except String String) (fb : Bool)
    (q : String) : askE rt fb q = .ok (ask rt fb q) := by
  unfold askE ask askWith
  by_cases h : pyStrip q = ""
  · simp [h]
  · cases htb : tryBody rt (pyStrip q) <;> simp [h, htb]

/-- C10: model outputs `inf` and `nan` contain no digit, yet the whole-text
`float()` parse succeeds on them, so the normalizer extracts a numeric value
and `ask` returns its float-formatted rendering instead of passing the text
through. -/
theorem C10_inf_nan_extraction :
    extract_numeric_answer "inf" = some PyVal.inf ∧
    format_numeric PyVal.inf = "inf" ∧
    extract_numeric_answer "nan" = some PyVal.nan ∧
    format_numeric PyVal.nan = "nan" ∧
    "inf".data.all (fun c => ! c.isDigit) = true ∧
    "nan".data.all (fun c => ! c.isDigit) = true ∧
    ask (fun _ => .ok "inf") false "what is infinity" = "inf" ∧
    ask (fun _ => .ok "nan") false "zero times infinity" = "nan" := by
  decide

/-- C2: the strict gate accepts a query exactly when every character is a
digit, Python whitespace, one of `+ - * /`, a parenthesis or a decimal
point, and the query contains at least one digit and at least one operator
character; in particular any query containing any other character is
rejected. -/
theorem C2_gate_characterization (s : String) :
    is_strict_pure_expression s = true ↔
      (∀ c ∈ s.data, isAllowedChar c = true) ∧
      (∃ c ∈ s.data, c.isDigit = true) ∧
      (∃ c ∈ s.data, isOpChar c = true) := by
  by_cases h1 : s.data.isEmpty = true
  · have hnil : s.data = [] := by
      cases hd : s.data with
      | nil => rfl
      | cons a l => rw [hd] at h1; simp [List.isEmpty] at h1
    simp [is_strict_pure_expression, h1, hnil]
  · by_cases h2 : s.data.all isAllowedChar = true
    · have hred : is_strict_pure_expression s =
          (s.data.any Char.isDigit && s.data.any isOpChar) := by
        simp [is_strict_pure_expression, h1, h2]
      rw [hred, Bool.and_eq_true]
      constructor
      · intro h
        exact ⟨List.all_eq_true.mp h2, List.any_eq_true.mp h.1,
          List.any_eq_true.mp h.2⟩
      · rintro ⟨_, hd, ho⟩
        exact ⟨List.any_eq_true.mpr hd, List.any_eq_true.mpr ho⟩
    · have hall : s.data.all isAllowedChar = false :=
        Bool.not_eq_true _ ▸ Bool.of_not_eq_true h2
      have hred : is_strict_pure_expression s = false := by
        simp [is_strict_pure_expression, h1, hall]
      rw [hred]
      constructor
      · intro h; cases h
      · rintro ⟨hforall, _, _⟩
        exact absurd (List.all_eq_true.mpr hforall) h2

/-- C2 witness: the gate accepts `2 + 2 * (10 - 3)` by the characterization
applied right-to-left, each component decided concretely. -/
theorem C2_witness : is_strict_pure_expression "2 + 2 * (10 - 3)" = true :=
  (C2_gate_characterization "2 + 2 * (10 - 3)").mpr
    ⟨by decide, by decide, by decide⟩

/-- A query accepted by the gate is non-empty. -/
theorem gate_nonempty {s : String} (h : is_strict_pure_expression s = true) :
    s ≠ "" := by
  intro he
  rw [he] at h
  exact absurd h (by decide)

/-- C3: the divide primitive raises on a zero divisor, and whenever the
fallback path processes a gate-accepted expression whose evaluation reaches
a division by zero (the evaluator propagates the error as the
division-by-zero outcome), `ask` returns the fixed tool-failure message. -/
theorem C3_division_by_zero_failure (rt : String → Except String String)
    (q : String) (e : String)
    (hrt : rt (pyStrip q) = .error e)
    (hgate : is_strict_pure_expression (pyStrip q) = true)
    (heval : evaluate_pure_expression (pyStrip q) =
      .error EvalErr.divisionByZero) :
    ask rt true q = TOOL_FAILURE_MESSAGE ∧
      ∀ a : PyVal, divide (.num a) (.num (.finite 0)) =
        .error .divisionByZero := by
  constructor
  · have hne : pyStrip q ≠ "" := gate_nonempty hgate
    simp [ask, askWith, hne, tryBody, hrt, fallbackBranch, hgate, heval]
  · intro a
    simp [divide, to_float]

/-- C3 witness: query `10/0`, runtime raising; the fallback evaluates the
expression, hits the zero divisor and `ask` answers with the tool-failure
message. -/
theorem C3_witness :
    ask (fun _ => .error "boom") true "10/0" = TOOL_FAILURE_MESSAGE :=
  (C3_division_by_zero_failure (fun _ => .error "boom") "10/0" "boom"
    rfl (by decide) (by decide)).1

/-- C8: every outcome of `ask` is the fixed out-of-scope message, the fixed
tool-failure message, text derived from a successful runtime output (the
stripped output verbatim, or the float-formatted extracted number), or the
float-formatted result of a successful fallback evaluation — never text
taken from a raised exception, whatever message the exception carries. -/
theorem C8_fixed_error_strings (rt : String → Except String String)
    (fb : Bool) (q : String) :
    ask rt fb q = OUT_OF_SCOPE_MESSAGE ∨
    ask rt fb q = TOOL_FAILURE_MESSAGE ∨
    (∃ t, rt (pyStrip q) = .ok t ∧
      (ask rt fb q = pyStrip t ∨
       ∃ v, extract_numeric_answer (pyStrip t) = some v ∧
         ask rt fb q = format_numeric v)) ∨
    (∃ v, evaluate_pure_expression (pyStrip q) = .ok v ∧
      ask rt fb q = format_numeric v) := by
  unfold ask askWith
  by_cases hq : pyStrip q = ""
  · left; simp [hq]
  · cases hrt : rt (pyStrip q) with
    | ok t =>
      cases hex : extract_numeric_answer (pyStrip t) with
      | some v =>
        right; right; left
        refine ⟨t, rfl, Or.inr ⟨v, hex, ?_⟩⟩
        simp [hq, tryBody, hrt, hex]
      | none =>
        by_cases ht : pyStrip t = ""
        · right; left
          rw [ht] at hex
          simp [hq, tryBody, hrt, hex, ht]
        · right; right; left
          refine ⟨t, rfl, Or.inl ?_⟩
          simp [hq, tryBody, hrt, hex, ht]
    | error e =>
      cases hb : (fb && is_strict_pure_expression (pyStrip q)) with
      | false =>
        right; left
        simp [hq, tryBody, hrt, fallbackBranch, hb]
      | true =>
        cases hev : evaluate_pure_expression (pyStrip q) with
        | ok v =>
          right; right; right
          refine ⟨v, rfl, ?_⟩
          simp [hq, tryBody, hrt, fallbackBranch, hb, hev]
        | error err =>
          right; left
          simp [hq, tryBody, hrt, fallbackBranch, hb, hev]

/-- The only error `_to_float` signals is the invalid-input one. -/
theorem to_float_error {x : PyObj} {e : ArithErr}
    (h : to_float x = .error e) : e = .invalidInput := by
  cases x with
  | num v => exact absurd h (by simp [to_float])
  | str s =>
    simp only [to_float] at h
    cases hp : pyFloatOfString s <;> rw [hp] at h
    · injection h with h2; exact h2.symm
    · exact absurd h (by simp)
  | pyNone => injection h with h2; exact h2.symm
  | other => injection h with h2; exact h2.symm

/-- C7: each primitive coerces both operands and signals the invalid-input
error exactly when a coercion fails; `divide` signals the division-by-zero
error exactly when both operands coerce and the right one equals zero;
otherwise the primitives return the sum, difference, product and quotient of
the coerced operands (stated on ordinary rationals in the last conjunct). -/
theorem C7_primitives_contract :
    (∀ x y : PyObj,
      (add x y = .error .invalidInput ↔
        ((to_float x).isOk = false ∨ (to_float y).isOk = false)) ∧
      (subtract x y = .error .invalidInput ↔
        ((to_float x).isOk = false ∨ (to_float y).isOk = false)) ∧
      (multiply x y = .error .invalidInput ↔
        ((to_float x).isOk = false ∨ (to_float y).isOk = false)) ∧
      (divide x y = .error .invalidInput ↔
        ((to_float x).isOk = false ∨ (to_float y).isOk = false)) ∧
      (divide x y = .error .divisionByZero ↔
        (∃ a, to_float x = .ok a ∧ to_float y = .ok (.finite 0)))) ∧
    (∀ (x y : PyObj) (a b : PyVal), to_float x = .ok a → to_float y = .ok b →
      add x y = .ok (a.vadd b) ∧
      subtract x y = .ok (a.vsub b) ∧
      multiply x y = .ok (a.vmul b) ∧
      (b ≠ .finite 0 → divide x y = .ok (a.vdiv b))) ∧
    (∀ a b : ℚ,
      add (.num (.finite a)) (.num (.finite b)) = .ok (.finite (a + b)) ∧
      subtract (.num (.finite a)) (.num (.finite b)) = .ok (.finite (a - b)) ∧
      multiply (.num (.finite a)) (.num (.finite b)) = .ok (.finite (a * b)) ∧
      (b ≠ 0 →
        divide (.num (.finite a)) (.num (.finite b)) = .ok (.finite (a / b)))) := by
  refine ⟨fun x y => ⟨?_, ?_, ?_, ?_, ?_⟩, ?_, ?_⟩
  · cases hx : to_float x with
    | error e => simp [add, hx, to_float_error hx, Except.isOk, Except.toBool]
    | ok a =>
      cases hy : to_float y with
      | error e => simp [add, hx, hy, to_float_error hy, Except.isOk, Except.toBool]
      | ok b => simp [add, hx, hy, Except.isOk, Except.toBool]
  · cases hx : to_float x with
    | error e => simp [subtract, hx, to_float_error hx, Except.isOk, Except.toBool]
    | ok a =>
      cases hy : to_float y with
      | error e => simp [subtract, hx, hy, to_float_error hy, Except.isOk, Except.toBool]
      | ok b => simp [subtract, hx, hy, Except.isOk, Except.toBool]
  · cases hx : to_float x with
    | error e => simp [multiply, hx, to_float_error hx, Except.isOk, Except.toBool]
    | ok a =>
      cases hy : to_float y with
      | error e => simp [multiply, hx, hy, to_float_error hy, Except.isOk, Except.toBool]
      | ok b => simp [multiply, hx, hy, Except.isOk, Except.toBool]
  · cases hx : to_float x with
    | error e => simp [divide, hx, to_float_error hx, Except.isOk, Except.toBool]
    | ok a =>
      cases hy : to_float y with
      | error e => simp [divide, hx, hy, to_float_error hy, Except.isOk, Except.toBool]
      | ok b =>
        by_cases hb : b = PyVal.finite 0 <;> simp [divide, hx, hy, hb, Except.isOk, Except.toBool]
  · cases hx : to_float x with
    | error e =>
      have := to_float_error hx
      subst this
      simp [divide, hx]
    | ok a =>
      cases hy : to_float y with
      | error e =>
        have := to_float_error hy
        subst this
        simp [divide, hx, hy]
      | ok b =>
        by_cases hb : b = PyVal.finite 0 <;> simp [divide, hx, hy, hb]
  · intro x y a b hx hy
    refine ⟨?_, ?_, ?_, fun hb => ?_⟩
    · simp [add, hx, hy]
    · simp [subtract, hx, hy]
    · simp [multiply, hx, hy]
    · simp [divide, hx, hy, hb]
  · intro a b
    refine ⟨?_, ?_, ?_, fun hb => ?_⟩
    · simp [add, to_float, PyVal.vadd, qadd_eq]
    · simp [subtract, to_float, PyVal.vsub, PyVal.vneg, PyVal.vadd, qadd_eq,
        qneg_eq, sub_eq_add_neg]
    · simp [multiply, to_float, PyVal.vmul, qmul_eq]
    · simp [divide, to_float, PyVal.vdiv, PyVal.finite.injEq, hb, qdiv_eq]

/-- C7 witness: `10 / 4` through the divide primitive yields `2.5`, applying
the contract with the nonzero-divisor hypothesis discharged concretely. -/
theorem C7_witness :
    divide (.num (.finite 10)) (.num (.finite 4)) =
      .ok (.finite ((10 : ℚ) / 4)) :=
  (C7_primitives_contract.2.2 10 4).2.2.2 (by norm_num)

/-- C4: the normalizer first tries to parse the whole trimmed text as one
numeric literal; failing that it takes the last regex match; with no match it
returns none and the (non-empty) text passes through `ask` verbatim, while
every extracted number is returned float-formatted; concretely `"50.0"`
normalizes to `"50.0"` and the last number wins in
`"Compute 25 times 34 and then plus 17 = 867"`, giving `"867.0"`. -/
theorem C4_normalizer_policy :
    (∀ (t : String) (v : PyVal), pyFloatOfString (pyStrip t) = some v →
      extract_numeric_answer t = some v) ∧
    (∀ t : String, pyFloatOfString (pyStrip t) = none →
      extract_numeric_answer t =
        ((reFindNums (pyStrip t).length (pyStrip t).data).getLast?).bind
          (fun m => pyFloatOfString (String.mk m))) ∧
    (∀ t : String, pyFloatOfString (pyStrip t) = none →
      reFindNums (pyStrip t).length (pyStrip t).data = [] →
      extract_numeric_answer t = none) ∧
    (∀ (rt : String → Except String String) (fb : Bool) (q t : String),
      pyStrip q ≠ "" → rt (pyStrip q) = .ok t → pyStrip t ≠ "" →
      extract_numeric_answer (pyStrip t) = none →
      ask rt fb q = pyStrip t) ∧
    (∀ (rt : String → Except String String) (fb : Bool) (q t : String)
      (v : PyVal),
      pyStrip q ≠ "" → rt (pyStrip q) = .ok t →
      extract_numeric_answer (pyStrip t) = some v →
      ask rt fb q = format_numeric v) ∧
    extract_numeric_answer "50.0" = some (.finite 50) ∧
    format_numeric (.finite 50) = "50.0" ∧
    extract_numeric_answer "Compute 25 times 34 and then plus 17 = 867" =
      some (.finite 867) ∧
    format_numeric (.finite 867) = "867.0" := by
  refine ⟨?_, ?_, ?_, ?_, ?_, by decide, by decide, by decide, by decide⟩
  · intro t v h
    simp [extract_numeric_answer, h]
  · intro t h
    simp only [extract_numeric_answer, h]
    cases hl : (reFindNums (pyStrip t).length (pyStrip t).data).getLast? <;>
      simp [hl]
  · intro t h h2
    simp [extract_numeric_answer, h, h2]
  · intro rt fb q t hq hrt ht hex
    simp [ask, askWith, hq, tryBody, hrt, hex, ht]
  · intro rt fb q t v hq hrt hex
    simp [ask, askWith, hq, tryBody, hrt, hex]

/-- C4 witness: a non-numeric model answer passes through `ask` unchanged,
via the pass-through conjunct with all hypotheses discharged concretely. -/
theorem C4_witness :
    ask (fun _ => .ok "I cannot do that.") true "what?" = "I cannot do that." := by
  have h := C4_normalizer_policy.2.2.2.1 (fun _ => .ok "I cannot do that.")
    true "what?" "I cannot do that." (by decide) rfl (by decide) (by decide)
  rw [h]
  decide

theorem freeT_freeF {r : List Tok} (h : freeT r = true) : freeF r = true := by
  cases r with
  | nil => rfl
  | cons t ts =>
    simp [freeT] at h
    simp [freeF]
    tauto

theorem stdAtom_nil (f : ℕ) : stdAtom f [] = none := by
  cases f <;> rfl

theorem stdAtom_rparen (f : ℕ) (r : List Tok) :
    stdAtom f (.rparen :: r) = none := by
  cases f <;> rfl

theorem stdUnary_nil (f : ℕ) : stdUnary f [] = none := by
  cases f with
  | zero => rfl
  | succ f => simp [stdUnary, stdAtom_nil]

theorem stdUnary_rparen (f : ℕ) (r : List Tok) :
    stdUnary f (.rparen :: r) = none := by
  cases f with
  | zero => rfl
  | succ f => simp [stdUnary, stdAtom_rparen]

theorem stdTerm_nil (f : ℕ) : stdTerm f [] = none := by
  cases f with
  | zero => rfl
  | succ f => simp [stdTerm, stdUnary_nil]

theorem stdTerm_rparen (f : ℕ) (r : List Tok) :
    stdTerm f (.rparen :: r) = none := by
  cases f with
  | zero => rfl
  | succ f => simp [stdTerm, stdUnary_rparen]

theorem stdExpr_nil (f : ℕ) : stdExpr f [] = none := by
  cases f with
  | zero => rfl
  | succ f => simp [stdExpr, stdTerm_nil]

theorem stdExpr_rparen (f : ℕ) (r : List Tok) :
    stdExpr f (.rparen :: r) = none := by
  cases f with
  | zero => rfl
  | succ f => simp [stdExpr, stdTerm_rparen]

theorem head_eq_cons {t : Tok} {toks : List Tok} (h : toks.head? = some t) :
    ∃ ts, toks = t :: ts := by
  cases toks with
  | nil => simp at h
  | cons a ts =>
    simp at h
    exact ⟨ts, by rw [h]⟩

theorem freeT_ne_dslash {toks : List Tok} (h : freeT toks = true) :
    toks.head? ≠ some Tok.dslash := by
  cases toks with
  | nil => simp
  | cons t ts =>
    intro hc
    simp at hc
    subst hc
    simp [freeT] at h

theorem pyTrailPow_stop (f : ℕ) (a : PyAst) (rest : List Tok)
    (h : freeF rest = true) : pyTrailPow (f + 1) a rest = some (a, rest) := by
  cases rest with
  | nil => rfl
  | cons t ts => cases t <;> first | rfl | simp [freeF] at h

theorem stdTermRest_stop (f : ℕ) (acc : StdExpr) (toks : List Tok)
    (h1 : toks.head? ≠ some Tok.star) (h2 : toks.head? ≠ some Tok.slash) :
    stdTermRest (f + 1) acc toks = some (acc, toks) := by
  cases toks with
  | nil => rfl
  | cons t ts => cases t <;> first | rfl | simp_all

theorem pyTermRest_stop (f : ℕ) (acc : PyAst) (toks : List Tok)
    (h1 : toks.head? ≠ some Tok.star) (h2 : toks.head? ≠ some Tok.slash)
    (h3 : toks.head? ≠ some Tok.dslash) :
    pyTermRest (f + 1) acc toks = some (acc, toks) := by
  cases toks with
  | nil => rfl
  | cons t ts => cases t <;> first | rfl | simp_all

theorem stdExprRest_stop (f : ℕ) (acc : StdExpr) (toks : List Tok)
    (h1 : toks.head? ≠ some Tok.plus) (h2 : toks.head? ≠ some Tok.minus) :
    stdExprRest (f + 1) acc toks = some (acc, toks) := by
  cases toks with
  | nil => rfl
  | cons t ts => cases t <;> first | rfl | simp_all

theorem pyExprRest_stop (f : ℕ) (acc : PyAst) (toks : List Tok)
    (h1 : toks.head? ≠ some Tok.plus) (h2 : toks.head? ≠ some Tok.minus) :
    pyExprRest (f + 1) acc toks = some (acc, toks) := by
  cases toks with
  | nil => rfl
  | cons t ts => cases t <;> first | rfl | simp_all

theorem stdUnary_shape (f : ℕ) (toks : List Tok)
    (h1 : toks.head? ≠ some Tok.plus) (h2 : toks.head? ≠ some Tok.minus) :
    stdUnary (f + 1) toks =
      (match stdAtom f toks with
       | some (a, r) => some (a, r)
       | none => none) := by
  cases toks with
  | nil => rfl
  | cons t ts => cases t <;> first | rfl | simp_all

theorem pyFactor_shape (f : ℕ) (toks : List Tok)
    (h1 : toks.head? ≠ some Tok.plus) (h2 : toks.head? ≠ some Tok.minus) :
    pyFactor (f + 1) toks =
      (match pyAtom f toks with
       | some (a, r) => pyTrailPow f a r
       | none => none) := by
  cases toks with
  | nil => rfl
  | cons t ts => cases t <;> first | rfl | simp_all

theorem pyAtom_shape_lparen (f : ℕ) (ts : List Tok)
    (h : ts.head? ≠ some Tok.rparen) :
    pyAtom (f + 1) (.lparen :: ts) =
      (match pyExpr f ts with
       | some (e', .rparen :: r2) => some (e', r2)
       | _ => none) := by
  cases ts with
  | nil => rfl
  | cons t ts0 => cases t <;> first | rfl | simp_all

theorem termRest_rest_free (f : ℕ) (acc : StdExpr) (r2 : List Tok)
    (e : StdExpr) (rest : List Tok) (h : stdTermRest f acc r2 = some (e, rest))
    (hfree : freeT rest = true) : freeF r2 = true := by
  cases f with
  | zero => exact Option.noConfusion h
  | succ f2 =>
    by_cases hs : r2.head? = some Tok.star
    · obtain ⟨ts, rfl⟩ := head_eq_cons hs
      rfl
    · by_cases hl : r2.head? = some Tok.slash
      · obtain ⟨ts, rfl⟩ := head_eq_cons hl
        rfl
      · rw [stdTermRest_stop f2 acc r2 hs hl] at h
        injection h with h2
        cases h2
        exact freeT_freeF hfree

theorem exprRest_rest_free (f : ℕ) (acc : StdExpr) (r2 : List Tok)
    (e : StdExpr) (rest : List Tok) (h : stdExprRest f acc r2 = some (e, rest))
    (hfree : freeT rest = true) : freeT r2 = true := by
  cases f with
  | zero => exact Option.noConfusion h
  | succ f2 =>
    by_cases hs : r2.head? = some Tok.plus
    · obtain ⟨ts, rfl⟩ := head_eq_cons hs
      rfl
    · by_cases hl : r2.head? = some Tok.minus
      · obtain ⟨ts, rfl⟩ := head_eq_cons hl
        rfl
      · rw [stdExprRest_stop f2 acc r2 hs hl] at h
        injection h with h2
        cases h2
        exact hfree

/-- Parser refinement: wherever the standard four-operator grammar parses a
prefix of the token list, Python's richer grammar parses the same prefix to
the embedded tree, provided the unconsumed rest does not begin with a token
that only Python's grammar would consume at that level. -/
theorem refine_all (f : ℕ) :
    (∀ toks e rest, stdAtom f toks = some (e, rest) →
       pyAtom f toks = some (e.emb, rest)) ∧
    (∀ toks e rest, stdUnary f toks = some (e, rest) → freeF rest = true →
       pyFactor f toks = some (e.emb, rest)) ∧
    (∀ acc toks e rest, stdTermRest f acc toks = some (e, rest) →
       freeT rest = true → pyTermRest f acc.emb toks = some (e.emb, rest)) ∧
    (∀ toks e rest, stdTerm f toks = some (e, rest) → freeT rest = true →
       pyTerm f toks = some (e.emb, rest)) ∧
    (∀ acc toks e rest, stdExprRest f acc toks = some (e, rest) →
       freeT rest = true → pyExprRest f acc.emb toks = some (e.emb, rest)) ∧
    (∀ toks e rest, stdExpr f toks = some (e, rest) → freeT rest = true →
       pyExpr f toks = some (e.emb, rest)) := by
  induction f with
  | zero =>
    exact ⟨fun _ _ _ h => Option.noConfusion h,
      fun _ _ _ h _ => Option.noConfusion h,
      fun _ _ _ _ h _ => Option.noConfusion h,
      fun _ _ _ h _ => Option.noConfusion h,
      fun _ _ _ _ h _ => Option.noConfusion h,
      fun _ _ _ h _ => Option.noConfusion h⟩
  | succ f ih =>
    obtain ⟨ihA, ihU, ihTR, ihT, ihER, ihE⟩ := ih
    refine ⟨?_, ?_, ?_, ?_, ?_, ?_⟩
    -- atom level
    · intro toks e rest h
      cases toks with
      | nil => rw [stdAtom_nil] at h; exact Option.noConfusion h
      | cons t ts =>
        cases t with
        | num q =>
          have h' : (some (StdExpr.lit q, ts) : Option (StdExpr × List Tok)) =
              some (e, rest) := h
          injection h' with h2
          cases h2
          rfl
        | lparen =>
          have h' : (match stdExpr f ts with
                     | some (e', Tok.rparen :: r2) => some (e', r2)
                     | _ => none) = some (e, rest) := h
          cases hse : stdExpr f ts with
          | none => rw [hse] at h'; exact Option.noConfusion h'
          | some pr =>
            obtain ⟨e1, rest1⟩ := pr
            rw [hse] at h'
            cases rest1 with
            | nil => exact Option.noConfusion h'
            | cons rt rrest =>
              cases rt with
              | rparen =>
                injection h' with h2
                cases h2
                have hr : ts.head? ≠ some Tok.rparen := by
                  intro hc
                  obtain ⟨ts0, rfl⟩ := head_eq_cons hc
                  rw [stdExpr_rparen] at hse
                  exact Option.noConfusion hse
                rw [pyAtom_shape_lparen f ts hr, ihE _ _ _ hse rfl]
              | num q => exact Option.noConfusion h'
              | plus => exact Option.noConfusion h'
              | minus => exact Option.noConfusion h'
              | star => exact Option.noConfusion h'
              | slash => exact Option.noConfusion h'
              | dstar => exact Option.noConfusion h'
              | dslash => exact Option.noConfusion h'
              | lparen => exact Option.noConfusion h'
              | dot => exact Option.noConfusion h'
        | plus => exact Option.noConfusion h
        | minus => exact Option.noConfusion h
        | star => exact Option.noConfusion h
        | slash => exact Option.noConfusion h
        | dstar => exact Option.noConfusion h
        | dslash => exact Option.noConfusion h
        | rparen => exact Option.noConfusion h
        | dot => exact Option.noConfusion h
    -- factor level
    · intro toks e rest h hfree
      by_cases hp : toks.head? = some Tok.plus
      · obtain ⟨ts, rfl⟩ := head_eq_cons hp
        have h' : (fun p => (StdExpr.sign UOp.pos p.1, p.2)) <$> stdUnary f ts =
            some (e, rest) := h
        cases hsu : stdUnary f ts with
        | none => rw [hsu] at h'; exact Option.noConfusion h'
        | some pr =>
          obtain ⟨e1, rest1⟩ := pr
          rw [hsu] at h'
          have h'' : (some (StdExpr.sign UOp.pos e1, rest1) :
              Option (StdExpr × List Tok)) = some (e, rest) := h'
          injection h'' with h2
          cases h2
          have hf := ihU _ _ _ hsu hfree
          rw [show pyFactor (f + 1) (Tok.plus :: ts) =
              (fun p => (PyAst.unary UOp.pos p.1, p.2)) <$> pyFactor f ts from rfl,
            hf]
          rfl
      · by_cases hm : toks.head? = some Tok.minus
        · obtain ⟨ts, rfl⟩ := head_eq_cons hm
          have h' : (fun p => (StdExpr.sign UOp.neg p.1, p.2)) <$> stdUnary f ts =
              some (e, rest) := h
          cases hsu : stdUnary f ts with
          | none => rw [hsu] at h'; exact Option.noConfusion h'
          | some pr =>
            obtain ⟨e1, rest1⟩ := pr
            rw [hsu] at h'
            have h'' : (some (StdExpr.sign UOp.neg e1, rest1) :
                Option (StdExpr × List Tok)) = some (e, rest) := h'
            injection h'' with h2
            cases h2
            have hf := ihU _ _ _ hsu hfree
            rw [show pyFactor (f + 1) (Tok.minus :: ts) =
                (fun p => (PyAst.unary UOp.neg p.1, p.2)) <$> pyFactor f ts from rfl,
              hf]
            rfl
        · rw [stdUnary_shape f toks hp hm] at h
          cases hsa : stdAtom f toks with
          | none => rw [hsa] at h; exact Option.noConfusion h
          | some pr =>
            obtain ⟨e1, rest1⟩ := pr
            rw [hsa] at h
            injection h with h2
            cases h2
            cases f with
            | zero => exact Option.noConfusion hsa
            | succ f2 =>
              rw [pyFactor_shape (f2 + 1) toks hp hm, ihA _ _ _ hsa]
              exact pyTrailPow_stop f2 _ _ hfree
    -- term loop level
    · intro acc toks e rest h hfree
      by_cases hs : toks.head? = some Tok.star
      · obtain ⟨ts, rfl⟩ := head_eq_cons hs
        have h' : (match stdUnary f ts with
                   | some (b, r2) => stdTermRest f (.bin .mul acc b) r2
                   | none => none) = some (e, rest) := h
        cases hsu : stdUnary f ts with
        | none => rw [hsu] at h'; exact Option.noConfusion h'
        | some pr =>
          obtain ⟨b, r2⟩ := pr
          rw [hsu] at h'
          have hfF := termRest_rest_free f _ _ _ _ h' hfree
          have hU := ihU _ _ _ hsu hfF
          have hTR := ihTR (StdExpr.bin .mul acc b) _ _ _ h' hfree
          show (match pyFactor f ts with
                | some (b', r2') => pyTermRest f (.binop .mul acc.emb b') r2'
                | none => none) = some (e.emb, rest)
          rw [hU]
          exact hTR
      · by_cases hl : toks.head? = some Tok.slash
        · obtain ⟨ts, rfl⟩ := head_eq_cons hl
          have h' : (match stdUnary f ts with
                     | some (b, r2) => stdTermRest f (.bin .div acc b) r2
                     | none => none) = some (e, rest) := h
          cases hsu : stdUnary f ts with
          | none => rw [hsu] at h'; exact Option.noConfusion h'
          | some pr =>
            obtain ⟨b, r2⟩ := pr
            rw [hsu] at h'
            have hfF := termRest_rest_free f _ _ _ _ h' hfree
            have hU := ihU _ _ _ hsu hfF
            have hTR := ihTR (StdExpr.bin .div acc b) _ _ _ h' hfree
            show (match pyFactor f ts with
                  | some (b', r2') => pyTermRest f (.binop .div acc.emb b') r2'
                  | none => none) = some (e.emb, rest)
            rw [hU]
            exact hTR
        · rw [stdTermRest_stop f acc toks hs hl] at h
          injection h with h2
          cases h2
          exact pyTermRest_stop f acc.emb toks hs hl (freeT_ne_dslash hfree)
    -- term level
    · intro toks e rest h hfree
      have h' : (match stdUnary f toks with
                 | some (a, r) => stdTermRest f a r
                 | none => none) = some (e, rest) := h
      cases hsu : stdUnary f toks with
      | none => rw [hsu] at h'; exact Option.noConfusion h'
      | some pr =>
        obtain ⟨a, r⟩ := pr
        rw [hsu] at h'
        have hfF := termRest_rest_free f _ _ _ _ h' hfree
        have hU := ihU _ _ _ hsu hfF
        have hTR := ihTR a _ _ _ h' hfree
        show (match pyFactor f toks with
              | some (a', r') => pyTermRest f a' r'
              | none => none) = some (e.emb, rest)
        rw [hU]
        exact hTR
    -- expression loop level
    · intro acc toks e rest h hfree
      by_cases hs : toks.head? = some Tok.plus
      · obtain ⟨ts, rfl⟩ := head_eq_cons hs
        have h' : (match stdTerm f ts with
                   | some (b, r2) => stdExprRest f (.bin .add acc b) r2
                   | none => none) = some (e, rest) := h
        cases hst : stdTerm f ts with
        | none => rw [hst] at h'; exact Option.noConfusion h'
        | some pr =>
          obtain ⟨b, r2⟩ := pr
          rw [hst] at h'
          have hfT := exprRest_rest_free f _ _ _ _ h' hfree
          have hT := ihT _ _ _ hst hfT
          have hER := ihER (StdExpr.bin .add acc b) _ _ _ h' hfree
          show (match pyTerm f ts with
                | some (b', r2') => pyExprRest f (.binop .add acc.emb b') r2'
                | none => none) = some (e.emb, rest)
          rw [hT]
          exact hER
      · by_cases hl : toks.head? = some Tok.minus
        · obtain ⟨ts, rfl⟩ := head_eq_cons hl
          have h' : (match stdTerm f ts with
                     | some (b, r2) => stdExprRest f (.bin .sub acc b) r2
                     | none => none) = some (e, rest) := h
          cases hst : stdTerm f ts with
          | none => rw [hst] at h'; exact Option.noConfusion h'
          | some pr =>
            obtain ⟨b, r2⟩ := pr
            rw [hst] at h'
            have hfT := exprRest_rest_free f _ _ _ _ h' hfree
            have hT := ihT _ _ _ hst hfT
            have hER := ihER (StdExpr.bin .sub acc b) _ _ _ h' hfree
            show (match pyTerm f ts with
                  | some (b', r2') => pyExprRest f (.binop .sub acc.emb b') r2'
                  | none => none) = some (e.emb, rest)
            rw [hT]
            exact hER
        · rw [stdExprRest_stop f acc toks hs hl] at h
          injection h with h2
          cases h2
          exact pyExprRest_stop f acc.emb toks hs hl
    -- expression level
    · intro toks e rest h hfree
      have h' : (match stdTerm f toks with
                 | some (a, r) => stdExprRest f a r
                 | none => none) = some (e, rest) := h
      cases hst : stdTerm f toks with
      | none => rw [hst] at h'; exact Option.noConfusion h'
      | some pr =>
        obtain ⟨a, r⟩ := pr
        rw [hst] at h'
        have hfT := exprRest_rest_free f _ _ _ _ h' hfree
        have hT := ihT _ _ _ hst hfT
        have hER := ihER a _ _ _ h' hfree
        show (match pyTerm f toks with
              | some (a', r') => pyExprRest f a' r'
              | none => none) = some (e.emb, rest)
        rw [hT]
        exact hER

/-- Evaluation agreement: the spec-tree evaluation and `_eval_ast` on the
embedded tree produce the same value. -/
theorem stdEval_emb : ∀ (e : StdExpr) (v : PyVal),
    stdEvalTree e = some v → eval_ast e.emb = .ok v := by
  intro e
  induction e with
  | lit q =>
    intro v h
    have h' : (some (PyVal.finite q) : Option PyVal) = some v := h
    injection h' with h2
    cases h2
    rfl
  | sign u e ih =>
    cases u with
    | pos =>
      intro v h
      have h' : stdEvalTree e = some v := h
      rw [show eval_ast (StdExpr.sign UOp.pos e).emb =
          (match eval_ast e.emb with
           | .error err => .error err
           | .ok w => .ok w) from rfl, ih v h']
    | neg =>
      intro v h
      have h' : (stdEvalTree e).map PyVal.vneg = some v := h
      cases hse : stdEvalTree e with
      | none => rw [hse] at h'; exact Option.noConfusion h'
      | some w =>
        rw [hse] at h'
        have h'' : (some w.vneg : Option PyVal) = some v := h'
        injection h'' with h2
        cases h2
        rw [show eval_ast (StdExpr.sign UOp.neg e).emb =
            (match eval_ast e.emb with
             | .error err => .error err
             | .ok w => .ok w.vneg) from rfl, ih w hse]
  | bin op l r ihl ihr =>
    intro v h
    have h' : (match stdEvalTree l with
               | none => none
               | some a =>
                 match stdEvalTree r with
                 | none => none
                 | some b =>
                   (match op with
                    | .add => add (.num a) (.num b)
                    | .sub => subtract (.num a) (.num b)
                    | .mul => multiply (.num a) (.num b)
                    | .div => divide (.num a) (.num b)).toOption) = some v := h
    cases hl : stdEvalTree l with
    | none => rw [hl] at h'; exact Option.noConfusion h'
    | some a =>
      rw [hl] at h'
      cases hr : stdEvalTree r with
      | none => rw [hr] at h'; exact Option.noConfusion h'
      | some b =>
        rw [hr] at h'
        cases op with
        | add =>
          have h'' : (add (.num a) (.num b)).toOption = some v := h'
          cases hx : add (.num a) (.num b) with
          | error err => rw [hx] at h''; exact Option.noConfusion h''
          | ok w =>
            rw [hx] at h''
            injection h'' with h2
            cases h2
            rw [show eval_ast (StdExpr.bin StdOp.add l r).emb =
                (match eval_ast l.emb with
                 | .error err => .error err
                 | .ok a' =>
                   match eval_ast r.emb with
                   | .error err => .error err
                   | .ok b' => (add (.num a') (.num b')).mapError ArithErr.toEval)
                from rfl, ihl a hl, ihr b hr]
            show (add (.num a) (.num b)).mapError ArithErr.toEval = .ok v
            rw [hx]
            rfl
        | sub =>
          have h'' : (subtract (.num a) (.num b)).toOption = some v := h'
          cases hx : subtract (.num a) (.num b) with
          | error err => rw [hx] at h''; exact Option.noConfusion h''
          | ok w =>
            rw [hx] at h''
            injection h'' with h2
            cases h2
            rw [show eval_ast (StdExpr.bin StdOp.sub l r).emb =
                (match eval_ast l.emb with
                 | .error err => .error err
                 | .ok a' =>
                   match eval_ast r.emb with
                   | .error err => .error err
                   | .ok b' =>
                     (subtract (.num a') (.num b')).mapError ArithErr.toEval)
                from rfl, ihl a hl, ihr b hr]
            show (subtract (.num a) (.num b)).mapError ArithErr.toEval = .ok v
            rw [hx]
            rfl
        | mul =>
          have h'' : (multiply (.num a) (.num b)).toOption = some v := h'
          cases hx : multiply (.num a) (.num b) with
          | error err => rw [hx] at h''; exact Option.noConfusion h''
          | ok w =>
            rw [hx] at h''
            injection h'' with h2
            cases h2
            rw [show eval_ast (StdExpr.bin StdOp.mul l r).emb =
                (match eval_ast l.emb with
                 | .error err => .error err
                 | .ok a' =>
                   match eval_ast r.emb with
                   | .error err => .error err
                   | .ok b' =>
                     (multiply (.num a') (.num b')).mapError ArithErr.toEval)
                from rfl, ihl a hl, ihr b hr]
            show (multiply (.num a) (.num b)).mapError ArithErr.toEval = .ok v
            rw [hx]
            rfl
        | div =>
          have h'' : (divide (.num a) (.num b)).toOption = some v := h'
          cases hx : divide (.num a) (.num b) with
          | error err => rw [hx] at h''; exact Option.noConfusion h''
          | ok w =>
            rw [hx] at h''
            injection h'' with h2
            cases h2
            rw [show eval_ast (StdExpr.bin StdOp.div l r).emb =
                (match eval_ast l.emb with
                 | .error err => .error err
                 | .ok a' =>
                   match eval_ast r.emb with
                   | .error err => .error err
                   | .ok b' =>
                     (divide (.num a') (.num b')).mapError ArithErr.toEval)
                from rfl, ihl a hl, ihr b hr]
            show (divide (.num a) (.num b)).mapError ArithErr.toEval = .ok v
            rw [hx]
            rfl

/-- C1 (amended): for every gate-accepted string that is lexically a Python
expression (no leading indentation, newlines only inside parentheses or
trailing, no leading zeros in decimal integer literals, no vertical tabs)
and parses under the standard four-operator precedence grammar to a defined
value, the fallback evaluator returns exactly that value: multiplication and
division bind tighter than addition and subtraction, unary signs bind
tightest, parentheses group. -/
theorem C1_standard_precedence (s : String) (v : PyVal)
    (hgate : is_strict_pure_expression s = true)
    (hstd : stdStrictValue s = some v) :
    evaluate_pure_expression s = .ok v := by
  unfold stdStrictValue at hstd
  cases htok : pyTokenize s with
  | none => rw [htok] at hstd; exact Option.noConfusion hstd
  | some toks =>
    rw [htok] at hstd
    have hstd' : (stdParse toks).bind stdEvalTree = some v := hstd
    cases hsp : stdParse toks with
    | none => rw [hsp] at hstd'; exact Option.noConfusion hstd'
    | some e =>
      rw [hsp] at hstd'
      have he : stdEvalTree e = some v := hstd'
      have hsp' : (match stdExpr (parseFuel toks) toks with
                   | some (e0, []) => some e0
                   | _ => none) = some e := hsp
      cases hse : stdExpr (parseFuel toks) toks with
      | none => rw [hse] at hsp'; exact Option.noConfusion hsp'
      | some pr =>
        obtain ⟨e0, rest0⟩ := pr
        rw [hse] at hsp'
        cases rest0 with
        | cons r rs => exact Option.noConfusion hsp'
        | nil =>
          injection hsp' with h2
          cases h2
          have hpy := (refine_all (parseFuel toks)).2.2.2.2.2 _ _ _ hse rfl
          have hp : pyParse toks = some (StdExpr.emb e) := by
            unfold pyParse
            rw [hpy]
          have hval : evaluate_pure_expression s =
              (match pyParse toks with
               | none => Except.error EvalErr.syntaxErr
               | some a => eval_ast a) := by
            unfold evaluate_pure_expression
            rw [htok]
          rw [hval, hp]
          exact stdEval_emb e v he

/-- C1 witness: `2 + 2 * (10 - 3)` evaluates to `16` through the fallback
evaluator, with the gate and the standard-precedence value decided
concretely. -/
theorem C1_witness :
    evaluate_pure_expression "2 + 2 * (10 - 3)" = .ok (.finite 16) :=
  C1_standard_precedence "2 + 2 * (10 - 3)" (.finite 16) (by decide) (by decide)

/-- C1 counterexample: `" 1+1"` consists only of allowed characters, has a
digit and an operator, and reads as `2` under whitespace-insensitive
standard arithmetic, yet the fallback evaluator raises (Python's tokenizer
rejects the leading indentation in `eval` mode), so it does not yield the
expression's value. -/
theorem C1_counterexample :
    is_strict_pure_expression " 1+1" = true ∧
    stdLenientValue " 1+1" = some (.finite 2) ∧
    evaluate_pure_expression " 1+1" ≠ .ok (.finite 2) ∧
    evaluate_pure_expression " 1+1" = .error .syntaxErr := by
  decide

end CalcAgent
